import Mathlib

/-!
Shallow embedding of the ELK layout glue code of this repository
(`src/app/services/elk-layout.service.ts` and the data model in
`src/app/models/graph.interface.ts`), together with theorems settling the
specification claims about it.

Modelling conventions:
* JS numbers are modelled as `Int` (the code only adds coordinates and
  compares nothing numeric, so rounding plays no role).
* A JS value that may be `undefined`/`null` is modelled as an `Option`;
  `undefined` and `null` are identified because every expression of the
  service that touches them (`!v`, `=== group.id`, `!==` between two
  parent lookups) yields the same result under this identification
  (`undefined === null` is false in JS, but the only place two such
  values are compared, `sourceNode?.parentId !== targetNode?.parentId`,
  is disjoined with `!a && !b`, which already accepts every mixed case).
* JS string falsiness: `!s` is true for `null`/`undefined` and for `""`.
* `edge.sources[0]` is modelled by `jsIndex0`, whose `""` default stands
  for the JS `undefined` read off an empty array; the service only ever
  builds singleton `sources`/`targets` arrays.
* The ELK engine is opaque: it is a parameter of type
  `ElkNode → Except ε ElkNode`, a promise that either resolves with a
  graph or rejects with an error value.
-/

/-- `IPoint` of `@foblex/2d`; `PointExtensions.initialize (x, y)` is `⟨x, y⟩`. -/
structure IPoint where
  x : Int
  y : Int
deriving DecidableEq, Repr

/-- `ISize` of `@foblex/2d`.  The fields are `Option` because the service
copies `width`/`height` straight off dynamically-typed ELK result objects,
where they may be absent. -/
structure ISize where
  width? : Option Int
  height? : Option Int
deriving DecidableEq, Repr

/-- `IGroup` from `graph.interface.ts`. -/
structure IGroup where
  id : String
  size : ISize
  position? : Option IPoint
deriving DecidableEq, Repr

/-- `INode` from `graph.interface.ts`; `parentId = none` models `null`. -/
structure INode where
  id : String
  size : ISize
  position? : Option IPoint
  parentId : Option String
deriving DecidableEq, Repr

/-- `IEdge` from `graph.interface.ts`. -/
structure IEdge where
  id : String
  source : String
  target : String
  sourceHandle : String
  targetHandle : String
deriving DecidableEq, Repr

/-- `ILayoutInput` from `graph.interface.ts`. -/
structure ILayoutInput where
  groups : List IGroup
  nodes : List INode
  edges : List IEdge
  enableGroups : Bool
deriving DecidableEq, Repr

/-- `ILayoutOutput` from `graph.interface.ts`. -/
structure ILayoutOutput where
  groups : List IGroup
  nodes : List INode
  edges : List IEdge
deriving DecidableEq, Repr

/-- `IElkLayoutOptions.spacing`. -/
structure ISpacing where
  nodeNode? : Option Int
  nodeNodeBetweenLayers? : Option Int
  componentComponent? : Option Int
  edgeNode? : Option Int
  edgeEdge? : Option Int
deriving DecidableEq, Repr

/-- `IElkLayoutOptions.groupPadding`. -/
structure IGroupPadding where
  top? : Option Int
  right? : Option Int
  bottom? : Option Int
  left? : Option Int
deriving DecidableEq, Repr

/-- `IElkLayoutOptions`; every field is optional in the TS interface, and a
`Partial<IElkLayoutOptions>` is the same type with absent fields as `none`. -/
structure IElkLayoutOptions where
  algorithm? : Option String
  direction? : Option String
  spacing? : Option ISpacing
  groupPadding? : Option IGroupPadding
  edgeRouting? : Option String
  nodePlacement? : Option String
deriving DecidableEq, Repr

/-- The all-absent `Partial<IElkLayoutOptions>` (i.e. `{}` or the omitted
`options` argument). -/
def emptyOptions : IElkLayoutOptions :=
  ⟨none, none, none, none, none, none⟩

/-- The service field `defaultOptions`. -/
def defaultOptions : IElkLayoutOptions where
  algorithm? := some "layered"
  direction? := some "RIGHT"
  spacing? := some ⟨some 80, some 80, some 100, some 40, some 20⟩
  groupPadding? := some ⟨some 50, some 50, some 50, some 50⟩
  edgeRouting? := some "ORTHOGONAL"
  nodePlacement? := some "NETWORK_SIMPLEX"

/-- JS shallow object spread on one field: the override wins when present. -/
def ovr {α : Type} (dflt : Option α) (o : Option α) : Option α :=
  match o with
  | some v => some v
  | none => dflt

/-- `{ ...this.defaultOptions, ...options }` (shallow field-wise spread). -/
def mergeOptions (d o : IElkLayoutOptions) : IElkLayoutOptions where
  algorithm? := ovr d.algorithm? o.algorithm?
  direction? := ovr d.direction? o.direction?
  spacing? := ovr d.spacing? o.spacing?
  groupPadding? := ovr d.groupPadding? o.groupPadding?
  edgeRouting? := ovr d.edgeRouting? o.edgeRouting?
  nodePlacement? := ovr d.nodePlacement? o.nodePlacement?

/-- An edge object of the ELK graph: `{ id, sources, targets }`. -/
structure ElkEdge where
  id : String
  sources : List String
  targets : List String
deriving DecidableEq, Repr

/-- A node object of an ELK graph or an ELK result: the dynamically-typed
tree ELK works on.  Absent JS fields are `none` / `[]`. -/
inductive ElkNode where
  | mk
    (id : String)
    (type? : Option String)
    (width? : Option Int)
    (height? : Option Int)
    (x? : Option Int)
    (y? : Option Int)
    (layoutOptions : List (String × Option String))
    (children : List ElkNode)
    (edges : List ElkEdge)

def ElkNode.id : ElkNode → String
  | .mk v _ _ _ _ _ _ _ _ => v

def ElkNode.type? : ElkNode → Option String
  | .mk _ v _ _ _ _ _ _ _ => v

def ElkNode.width? : ElkNode → Option Int
  | .mk _ _ v _ _ _ _ _ _ => v

def ElkNode.height? : ElkNode → Option Int
  | .mk _ _ _ v _ _ _ _ _ => v

def ElkNode.x? : ElkNode → Option Int
  | .mk _ _ _ _ v _ _ _ _ => v

def ElkNode.y? : ElkNode → Option Int
  | .mk _ _ _ _ _ v _ _ _ => v

def ElkNode.layoutOptions : ElkNode → List (String × Option String)
  | .mk _ _ _ _ _ _ v _ _ => v

def ElkNode.children : ElkNode → List ElkNode
  | .mk _ _ _ _ _ _ _ v _ => v

def ElkNode.edges : ElkNode → List ElkEdge
  | .mk _ _ _ _ _ _ _ _ v => v

/-- JS `v || 0` on a possibly-absent coordinate. -/
def jsNum (v : Option Int) : Int :=
  v.getD 0

/-- JS falsiness of a `string | null | undefined` value: `null`,
`undefined` and `""` are falsy. -/
def jsFalsy (v : Option String) : Bool :=
  match v with
  | none => true
  | some s => s == ""

/-- JS `arr[0]` on a string array; `""` stands for the `undefined` read off
an empty array (the service only builds singleton arrays). -/
def jsIndex0 (l : List String) : String :=
  l.headD ""

/-- JS template interpolation of a possibly-absent number. -/
def jsTmpl (v : Option Int) : String :=
  match v with
  | some n => toString n
  | none => "undefined"

/-- The inline `{ id, width: node.size.width, height: node.size.height,
type: 'node' }` objects built for both root-level and group-child nodes. -/
def mkElkLeaf (n : INode) : ElkNode :=
  .mk n.id (some "node") n.size.width? n.size.height? none none [] [] []

/-- The inline `{ id, sources: [edge.source], targets: [edge.target] }`
objects built for every edge handed to ELK. -/
def mkElkEdge (e : IEdge) : ElkEdge :=
  ⟨e.id, [e.source], [e.target]⟩

/-- `nodes.find(n => n.id === edge.source)?.parentId`: the parent id of the
first node with the given id, `none` when the node is missing or its
`parentId` is `null`. -/
def jsParent (nodes : List INode) (nid : String) : Option String :=
  (nodes.find? (fun n => n.id == nid)).bind (fun n => n.parentId)

/-- `buildRootLayoutOptions` of `elk-layout.service.ts`: a string-keyed
option object, encoded as its key/value entries in insertion order (JS
spread lets later entries override earlier ones; nothing here compares
these objects beyond equality of like-built ones). -/
def buildRootLayoutOptions (options : IElkLayoutOptions) : List (String × Option String) :=
  let baseOptions : List (String × Option String) :=
    [("elk.algorithm", options.algorithm?),
     ("elk.spacing.nodeNode", some (jsTmpl (options.spacing?.bind (fun s => s.nodeNode?)))),
     ("elk.spacing.componentComponent", some (jsTmpl (options.spacing?.bind (fun s => s.componentComponent?)))),
     ("elk.separateConnectedComponents", some "true"),
     ("elk.hierarchyHandling", some "INCLUDE_CHILDREN")]
  if options.algorithm? == some "layered" then
    baseOptions ++
    [("elk.direction", options.direction?),
     ("elk.layered.spacing.nodeNodeBetweenLayers", some (jsTmpl (options.spacing?.bind (fun s => s.nodeNodeBetweenLayers?)))),
     ("elk.spacing.edgeNode", some (jsTmpl (options.spacing?.bind (fun s => s.edgeNode?)))),
     ("elk.spacing.edgeEdge", some (jsTmpl (options.spacing?.bind (fun s => s.edgeEdge?)))),
     ("elk.layered.nodePlacement.strategy", options.nodePlacement?),
     ("elk.layered.crossingMinimization.strategy", some "LAYER_SWEEP"),
     ("elk.layered.cycleBreaking.strategy", some "GREEDY"),
     ("elk.layered.layering.strategy", some "NETWORK_SIMPLEX"),
     ("elk.layered.thoroughness", some "10"),
     ("elk.edgeRouting", options.edgeRouting?),
     ("elk.layered.edgeRouting.selfLoopPlacement", some "NORTH_STACKED"),
     ("elk.portConstraints", some "FIXED_SIDE"),
     ("elk.considerModelOrder.strategy", some "NODES_AND_EDGES"),
     ("elk.interactiveLayout", some "true")]
  else if options.algorithm? == some "mrtree" then
    baseOptions ++
    [("elk.direction", options.direction?),
     ("elk.spacing.nodeNode", some "60"),
     ("elk.spacing.edgeNode", some "30"),
     ("elk.mrtree.searchOrder", some "DFS"),
     ("elk.mrtree.orderingStrategy", some "PREORDER"),
     ("elk.edgeRouting", some "ORTHOGONAL")]
  else if options.algorithm? == some "force" then
    baseOptions ++
    [("elk.force.model", some "FRUCHTERMAN_REINGOLD"),
     ("elk.force.iterations", some "500"),
     ("elk.force.repulsivePower", some "0"),
     ("elk.force.temperature", some "0.001"),
     ("elk.force.repulsion", some "2.0"),
     ("elk.spacing.nodeNode", some "150"),
     ("elk.interactive", some "true"),
     ("elk.randomizationSeed", some "1")]
  else if options.algorithm? == some "stress" then
    baseOptions ++
    [("elk.stress.desiredEdgeLength", some "100"),
     ("elk.stress.iterationLimit", some "300")]
  else
    baseOptions

/-- `buildGroupLayoutOptions` of `elk-layout.service.ts`. -/
def buildGroupLayoutOptions (options : IElkLayoutOptions) : List (String × Option String) :=
  let padding := options.groupPadding?
  let baseGroupOptions : List (String × Option String) :=
    [("elk.algorithm", options.algorithm?),
     ("elk.padding", some ("[top=" ++ jsTmpl (padding.bind (fun p => p.top?)) ++
       ",left=" ++ jsTmpl (padding.bind (fun p => p.left?)) ++
       ",bottom=" ++ jsTmpl (padding.bind (fun p => p.bottom?)) ++
       ",right=" ++ jsTmpl (padding.bind (fun p => p.right?)) ++ "]")),
     ("elk.spacing.nodeNode", some "50"),
     ("elk.spacing.componentComponent", some "70"),
     ("elk.nodeSize.constraints", some "NODE_LABELS MINIMUM_SIZE"),
     ("elk.hierarchyHandling", some "INCLUDE_CHILDREN")]
  if options.algorithm? == some "layered" then
    baseGroupOptions ++
    [("elk.direction", options.direction?),
     ("elk.layered.spacing.nodeNodeBetweenLayers", some "50"),
     ("elk.layered.nodePlacement.strategy", options.nodePlacement?),
     ("elk.layered.crossingMinimization.strategy", some "LAYER_SWEEP"),
     ("elk.layered.cycleBreaking.strategy", some "GREEDY"),
     ("elk.layered.layering.strategy", some "NETWORK_SIMPLEX"),
     ("elk.edgeRouting", options.edgeRouting?),
     ("elk.layered.edgeRouting.selfLoopPlacement", some "NORTH_STACKED"),
     ("elk.portConstraints", some "FIXED_SIDE"),
     ("elk.considerModelOrder.strategy", some "NODES_AND_EDGES")]
  else if options.algorithm? == some "mrtree" then
    baseGroupOptions ++
    [("elk.direction", options.direction?),
     ("elk.spacing.nodeNode", some "40"),
     ("elk.mrtree.searchOrder", some "DFS"),
     ("elk.mrtree.orderingStrategy", some "PREORDER"),
     ("elk.edgeRouting", some "ORTHOGONAL")]
  else if options.algorithm? == some "force" then
    baseGroupOptions ++
    [("elk.force.model", some "FRUCHTERMAN_REINGOLD"),
     ("elk.force.iterations", some "300"),
     ("elk.force.repulsion", some "1.5"),
     ("elk.spacing.nodeNode", some "80")]
  else if options.algorithm? == some "stress" then
    baseGroupOptions ++
    [("elk.stress.desiredEdgeLength", some "60"),
     ("elk.stress.iterationLimit", some "200")]
  else
    baseGroupOptions

/-- The predicate of `buildGroupHierarchy`'s edge filter: both endpoint
lookups resolve and carry `parentId === group.id`. -/
def sameGroupEdge (nodes : List INode) (gid : String) (e : IEdge) : Bool :=
  jsParent nodes e.source == some gid && jsParent nodes e.target == some gid

/-- `buildGroupHierarchy` of `elk-layout.service.ts`: one ELK group object
per input group, with the group's member nodes as children and the edges
internal to the group as its edge list.  The group object carries no
`width`/`height`/`x`/`y`. -/
def buildGroupHierarchy (groups : List IGroup) (nodes : List INode) (edges : List IEdge)
    (options : IElkLayoutOptions) : List ElkNode :=
  groups.map (fun group =>
    let children := (nodes.filter (fun n => n.parentId == some group.id)).map mkElkLeaf
    let groupEdges := (edges.filter (sameGroupEdge nodes group.id)).map mkElkEdge
    .mk group.id (some "group") none none none none
      (buildGroupLayoutOptions options) children groupEdges)

/-- The predicate of `buildRootLevelEdges`' filter: the two endpoint parent
lookups differ, or both are falsy (root level / missing endpoint). -/
def rootLevelEdge (nodes : List INode) (e : IEdge) : Bool :=
  jsParent nodes e.source != jsParent nodes e.target ||
    (jsFalsy (jsParent nodes e.source) && jsFalsy (jsParent nodes e.target))

/-- `buildRootLevelEdges` of `elk-layout.service.ts`. -/
def buildRootLevelEdges (nodes : List INode) (edges : List IEdge) : List ElkEdge :=
  (edges.filter (rootLevelEdge nodes)).map mkElkEdge

/-- `buildElkGraph` of `elk-layout.service.ts`.  Note `!node.parentId` keeps
a node at root level when its `parentId` is `null` or `""`. -/
def buildElkGraph (input : ILayoutInput) (options : IElkLayoutOptions) : ElkNode :=
  let elkGroups :=
    if input.enableGroups then
      buildGroupHierarchy input.groups input.nodes input.edges options
    else []
  let rootNodes := (input.nodes.filter (fun n => jsFalsy n.parentId)).map mkElkLeaf
  let rootEdges :=
    if input.enableGroups then buildRootLevelEdges input.nodes input.edges
    else input.edges.map mkElkEdge
  .mk "root" none none none none none (buildRootLayoutOptions options)
    (elkGroups ++ rootNodes) rootEdges

/-- The group record pushed by `extractLayoutResults` for a result child of
type `'group'`. -/
def extractGroup (g : ElkNode) : IGroup :=
  { id := g.id, size := ⟨g.width?, g.height?⟩,
    position? := some ⟨jsNum g.x?, jsNum g.y?⟩ }

/-- The node record pushed by `extractLayoutResults` for a child of a
result group: relative coordinates shifted by the group origin. -/
def extractNestedNode (g c : ElkNode) : INode :=
  { id := c.id, size := ⟨c.width?, c.height?⟩,
    position? := some ⟨jsNum g.x? + jsNum c.x?, jsNum g.y? + jsNum c.y?⟩,
    parentId := some g.id }

/-- The node record pushed by `extractLayoutResults` for a root-level
result child of type `'node'`. -/
def extractRootNode (c : ElkNode) : INode :=
  { id := c.id, size := ⟨c.width?, c.height?⟩,
    position? := some ⟨jsNum c.x?, jsNum c.y?⟩, parentId := none }

/-- The edge record pushed by `extractLayoutResults` for a root-level
result edge: both handles are set to the first endpoint entries. -/
def extractEdge (e : ElkEdge) : IEdge :=
  { id := e.id, source := jsIndex0 e.sources, target := jsIndex0 e.targets,
    sourceHandle := jsIndex0 e.sources, targetHandle := jsIndex0 e.targets }

/-- `extractLayoutResults` of `elk-layout.service.ts`: flattens an ELK
result back to flat arrays.  When `enableGroups` is set it walks the
root-level children of type `'group'`, pushing the group and then each of
its children as a node at absolute position; afterwards it pushes every
root-level child of type `'node'`, and finally maps the root-level result
edges (group edge lists are never read). -/
def extractLayoutResults (result : ElkNode) (enableGroups : Bool) : ILayoutOutput :=
  let elkGroups :=
    if enableGroups then result.children.filter (fun c => c.type? == some "group")
    else []
  let groups := elkGroups.map extractGroup
  let nestedNodes := elkGroups.flatMap (fun g => g.children.map (extractNestedNode g))
  let rootNodes := (result.children.filter (fun c => c.type? == some "node")).map extractRootNode
  let edges := result.edges.map extractEdge
  { groups := groups, nodes := nestedNodes ++ rootNodes, edges := edges }

/-- `calculateLayout` of `elk-layout.service.ts`, with the opaque ELK
engine as a parameter returning either a result graph or an error: merge
the options, build the graph, run the engine, extract; the `catch` block
logs and rethrows the engine's error unchanged. -/
def calculateLayout {ε : Type} (elkLayout : ElkNode → Except ε ElkNode)
    (input : ILayoutInput) (options : IElkLayoutOptions) : Except ε ILayoutOutput :=
  let layoutOptions := mergeOptions defaultOptions options
  let graph := buildElkGraph input layoutOptions
  match elkLayout graph with
  | Except.ok result => Except.ok (extractLayoutResults result input.enableGroups)
  | Except.error e => Except.error e

/-- `LocatedIn r gs c`: the object `c` sits in the result tree `r` below
the chain `gs` of enclosing containers (outermost first); `gs = []` means
`c` is a root-level child of `r`. -/
inductive LocatedIn : ElkNode → List ElkNode → ElkNode → Prop where
  | here {r c : ElkNode} : c ∈ r.children → LocatedIn r [] c
  | there {r g c : ElkNode} {gs : List ElkNode} :
      g ∈ r.children → LocatedIn g gs c → LocatedIn r (g :: gs) c

/-- The layout-invariant projection of a node: id, parent pointer and
size (everything but the computed position). -/
def projN (n : INode) : String × Option String × ISize :=
  (n.id, n.parentId, n.size)

/-- The identity of an edge record: id and endpoint ids. -/
def projE (e : IEdge) : String × String × String :=
  (e.id, e.source, e.target)

/-- All ids occurring as node objects in a two-level ELK graph as built by
`buildElkGraph`: the children of the root-level groups, then the
root-level children of type `'node'`. -/
def graphLeafIds (g : ElkNode) : List String :=
  (g.children.filter (fun c => c.type? == some "group")).flatMap
    (fun gr => gr.children.map ElkNode.id) ++
  (g.children.filter (fun c => c.type? == some "node")).map ElkNode.id

/-- The common parent of an edge's two endpoints: `some p` when both
endpoint lookups resolve to nodes with the same `parentId = p`, otherwise
`none`. -/
def edgeParentKey (nodes : List INode) (e : IEdge) : Option String :=
  match jsParent nodes e.source, jsParent nodes e.target with
  | some a, some b => if a == b then some a else none
  | _, _ => none

/-- An engine that returns the graph it was given, unchanged. -/
def idEngine : ElkNode → Except String ElkNode :=
  fun g => Except.ok g

/-- An engine that always rejects. -/
def errEngine : ElkNode → Except String ElkNode :=
  fun _ => Except.error "elk failed"

/-- A 100×80 size used by the concrete fixtures. -/
def szA : ISize := ⟨some 100, some 80⟩

/-- A 60×40 size used by the concrete fixtures. -/
def szB : ISize := ⟨some 60, some 40⟩

/-- Fixture: a well-formed grouped input — two groups `g1`, `g2`, member
nodes `a`, `b` in `g1` and `c` in `g2`, a root node `r`, and edges of all
placement kinds (`a→b` inside `g1`, `a→c` cross-group, `r→a` root-to-group,
`r→r` root self-loop). -/
def wfInput : ILayoutInput where
  groups := [⟨"g1", szA, none⟩, ⟨"g2", szA, none⟩]
  nodes :=
    [⟨"a", szB, none, some "g1"⟩, ⟨"b", szB, none, some "g1"⟩,
     ⟨"c", szB, none, some "g2"⟩, ⟨"r", szB, none, none⟩]
  edges :=
    [⟨"e1", "a", "b", "a", "b"⟩, ⟨"e2", "a", "c", "a", "c"⟩,
     ⟨"e3", "r", "a", "r", "a"⟩, ⟨"e4", "r", "r", "r", "r"⟩]
  enableGroups := true

/-- Fixture for the C2 counterexample: a group whose id is the empty
string, and a node whose `parentId` is that id.  The node's parent pointer
is the id of a group of the input, yet `!node.parentId` also counts the
node as root-level, so it is placed twice. -/
def emptyIdInput : ILayoutInput where
  groups := [⟨"", szA, none⟩]
  nodes := [⟨"n", szB, none, some ""⟩]
  edges := []
  enableGroups := true

/-- Fixture for the C5 counterexample: a node whose `parentId` names no
group; the node lands in no group's children and, being truthy, is also
filtered out of the root-level children. -/
def danglingParentInput : ILayoutInput where
  groups := []
  nodes := [⟨"n", szB, none, some "ghost"⟩]
  edges := []
  enableGroups := true

/-- Fixture for the C8 counterexample: both endpoints of `e` resolve to
nodes with the same `parentId = "ghost"`, but no group has that id, so the
edge enters neither a group edge list nor the root edge list. -/
def danglingEdgeInput : ILayoutInput where
  groups := []
  nodes := [⟨"a", szB, none, some "ghost"⟩, ⟨"b", szB, none, some "ghost"⟩]
  edges := [⟨"e", "a", "b", "a", "b"⟩]
  enableGroups := true

/-- Fixture for the C3 failing input: one group `G` with two member nodes
and one edge between them. -/
def intraGroupEdgeInput : ILayoutInput where
  groups := [⟨"G", szA, none⟩]
  nodes := [⟨"n1", szB, none, some "G"⟩, ⟨"n2", szB, none, some "G"⟩]
  edges := [⟨"e", "n1", "n2", "n1", "n2"⟩]
  enableGroups := true

/-- Fixture for the C9 counterexample: `enableGroups` is false and the
single node carries the non-null `parentId = ""`, which is falsy in JS. -/
def emptyParentFlatInput : ILayoutInput where
  groups := []
  nodes := [⟨"n", szB, none, some ""⟩]
  edges := []
  enableGroups := false

/-- Fixture: the child node `cN` of the hand-written ELK result below. -/
def sampleChildNode : ElkNode :=
  .mk "cN" (some "node") (some 100) (some 80) (some 1) (some 2) [] [] []

/-- Fixture: the positioned group `G` of the hand-written ELK result. -/
def sampleGroupNode : ElkNode :=
  .mk "G" (some "group") (some 300) (some 200) (some 10) (some 20) []
    [sampleChildNode] []

/-- Fixture: a root-level node `dN` of the hand-written ELK result; it has
no `x` coordinate. -/
def sampleLeafNode : ElkNode :=
  .mk "dN" (some "node") (some 60) (some 40) none (some 5) [] [] []

/-- Fixture: the root-level edge of the hand-written ELK result. -/
def sampleEdgeE : ElkEdge :=
  ⟨"e", ["cN"], ["dN"]⟩

/-- Fixture: a hand-written ELK result with one positioned group `G`
holding a child `cN`, one root-level node `dN` that has no `x` coordinate,
and one root-level edge. -/
def sampleResult : ElkNode :=
  .mk "root" none none none none none []
    [sampleGroupNode, sampleLeafNode] [sampleEdgeE]

/-- Fixture: the same groups as `wfInput` but with different sizes (and a
position on the first), for the C6 non-interference witness. -/
def wfInputResized : ILayoutInput :=
  { wfInput with
    groups := [⟨"g1", ⟨some 999, some 1⟩, some ⟨7, 8⟩⟩, ⟨"g2", szB, none⟩] }

theorem filter_or_disjoint_perm {α : Type} (p q : α → Bool) (l : List α)
    (h : ∀ a ∈ l, ¬(p a = true ∧ q a = true)) :
    (l.filter (fun a => p a || q a)).Perm (l.filter p ++ l.filter q) := by
  induction l with
  | nil => simp
  | cons a l ih =>
    have ha := h a (List.mem_cons_self a l)
    have ih' := ih (fun b hb => h b (List.mem_cons_of_mem a hb))
    by_cases hp : p a = true
    · have hq : q a = false := by
        cases hqv : q a with
        | false => rfl
        | true => exact absurd ⟨hp, hqv⟩ ha
      simpa [List.filter_cons, hp, hq] using ih'.cons a
    · have hp' : p a = false := by
        cases hpv : p a with
        | false => rfl
        | true => exact absurd hpv hp
      by_cases hq : q a = true
      · have step : (a :: l.filter (fun a => p a || q a)).Perm
            (l.filter p ++ a :: l.filter q) :=
          (ih'.cons a).trans List.perm_middle.symm
        simpa [List.filter_cons, hp', hq] using step
      · have hq' : q a = false := by
          cases hqv : q a with
          | false => rfl
          | true => exact absurd hqv hq
        simpa [List.filter_cons, hp', hq'] using ih'

theorem filter_key_flatMap_perm {α : Type} (key : α → Option String) (ids : List String)
    (l : List α) (hnd : ids.Nodup) :
    (l.filter (fun a => ids.any (fun i => key a == some i))).Perm
      (ids.flatMap (fun i => l.filter (fun a => key a == some i))) := by
  induction ids with
  | nil => simp
  | cons i ids ih =>
    have hni : i ∉ ids := (List.nodup_cons.mp hnd).1
    have ih' := ih (List.nodup_cons.mp hnd).2
    have hdisj : ∀ a ∈ l,
        ¬((key a == some i) = true ∧ (ids.any (fun j => key a == some j)) = true) := by
      intro a _ hcontra
      obtain ⟨h1, h2⟩ := hcontra
      have h1' : key a = some i := by simpa using h1
      have h2' : ∃ j ∈ ids, key a = some j := by simpa using h2
      obtain ⟨j, hj, hkj⟩ := h2'
      have : i = j := by
        have := h1'.symm.trans hkj
        simpa using this
      exact hni (this ▸ hj)
    have hpred : l.filter (fun a => (i :: ids).any (fun j => key a == some j)) =
        l.filter (fun a => (key a == some i) || ids.any (fun j => key a == some j)) := by
      simp only [List.any_cons]
    rw [hpred, List.flatMap_cons]
    exact (filter_or_disjoint_perm _ _ l hdisj).trans
      ((List.Perm.append_left (l.filter (fun a => key a == some i)) ih'))

theorem parent_partition_perm (groups : List IGroup) (nodes : List INode)
    (hnd : (groups.map IGroup.id).Nodup)
    (hne : ∀ g ∈ groups, g.id ≠ "")
    (hv : ∀ n ∈ nodes, n.parentId = none ∨ ∃ g ∈ groups, n.parentId = some g.id) :
    (groups.flatMap (fun g => nodes.filter (fun n => n.parentId == some g.id)) ++
      nodes.filter (fun n => jsFalsy n.parentId)).Perm nodes := by
  have hflat : groups.flatMap (fun g => nodes.filter (fun n => n.parentId == some g.id)) =
      (groups.map IGroup.id).flatMap (fun i => nodes.filter (fun n => n.parentId == some i)) :=
    (List.flatMap_map IGroup.id (fun i => nodes.filter (fun n => n.parentId == some i)) groups).symm
  have hkey := filter_key_flatMap_perm (fun n : INode => n.parentId) (groups.map IGroup.id)
    nodes hnd
  have hcong : nodes.filter
      (fun n => !((groups.map IGroup.id).any (fun i => n.parentId == some i))) =
      nodes.filter (fun n => jsFalsy n.parentId) := by
    apply List.filter_congr
    intro n hn
    rcases hv n hn with hnone | ⟨g, hg, hpid⟩
    · simp [hnone, jsFalsy]
    · have hmem : g.id ∈ groups.map IGroup.id := List.mem_map_of_mem IGroup.id hg
      have hany : ((groups.map IGroup.id).any (fun i => n.parentId == some i)) = true := by
        refine List.any_eq_true.mpr ⟨g.id, hmem, ?_⟩
        simp [hpid]
      have hfa : jsFalsy n.parentId = false := by
        simp [hpid, jsFalsy]
        exact hne g hg
      rw [hany, hfa]
      rfl
  have base := List.filter_append_perm
    (fun n : INode => (groups.map IGroup.id).any (fun i => n.parentId == some i)) nodes
  rw [hflat, ← hcong]
  exact (List.Perm.append hkey.symm (List.Perm.refl _)).trans base

theorem built_children_split (input : ILayoutInput) (options : IElkLayoutOptions)
    (h : input.enableGroups = true) :
    (buildElkGraph input options).children =
      buildGroupHierarchy input.groups input.nodes input.edges options ++
        (input.nodes.filter (fun n => jsFalsy n.parentId)).map mkElkLeaf := by
  simp [buildElkGraph, h, ElkNode.children]

theorem built_filter_group (input : ILayoutInput) (options : IElkLayoutOptions)
    (h : input.enableGroups = true) :
    (buildElkGraph input options).children.filter (fun c => c.type? == some "group") =
      buildGroupHierarchy input.groups input.nodes input.edges options := by
  rw [built_children_split input options h, List.filter_append]
  have h1 : (buildGroupHierarchy input.groups input.nodes input.edges options).filter
      (fun c => c.type? == some "group") =
      buildGroupHierarchy input.groups input.nodes input.edges options := by
    apply List.filter_eq_self.mpr
    intro a ha
    obtain ⟨g, _, rfl⟩ := List.mem_map.mp ha
    rfl
  have h2 : ((input.nodes.filter (fun n => jsFalsy n.parentId)).map mkElkLeaf).filter
      (fun c => c.type? == some "group") = [] := by
    apply List.filter_eq_nil_iff.mpr
    intro a ha
    obtain ⟨n, _, rfl⟩ := List.mem_map.mp ha
    simp [mkElkLeaf, ElkNode.type?]
  rw [h1, h2, List.append_nil]

theorem built_filter_node (input : ILayoutInput) (options : IElkLayoutOptions)
    (h : input.enableGroups = true) :
    (buildElkGraph input options).children.filter (fun c => c.type? == some "node") =
      (input.nodes.filter (fun n => jsFalsy n.parentId)).map mkElkLeaf := by
  rw [built_children_split input options h, List.filter_append]
  have h1 : (buildGroupHierarchy input.groups input.nodes input.edges options).filter
      (fun c => c.type? == some "node") = [] := by
    apply List.filter_eq_nil_iff.mpr
    intro a ha
    obtain ⟨g, _, rfl⟩ := List.mem_map.mp ha
    simp [ElkNode.type?]
  have h2 : ((input.nodes.filter (fun n => jsFalsy n.parentId)).map mkElkLeaf).filter
      (fun c => c.type? == some "node") =
      (input.nodes.filter (fun n => jsFalsy n.parentId)).map mkElkLeaf := by
    apply List.filter_eq_self.mpr
    intro a ha
    obtain ⟨n, _, rfl⟩ := List.mem_map.mp ha
    rfl
  rw [h1, h2, List.nil_append]

theorem jsParent_valid (groups : List IGroup) (nodes : List INode)
    (hne : ∀ g ∈ groups, g.id ≠ "")
    (hv : ∀ n ∈ nodes, n.parentId = none ∨ ∃ g ∈ groups, n.parentId = some g.id)
    (x : String) (a : String) (hx : jsParent nodes x = some a) :
    a ≠ "" ∧ a ∈ groups.map IGroup.id := by
  unfold jsParent at hx
  obtain ⟨n, hfind, hpid⟩ := Option.bind_eq_some.mp hx
  have hmem : n ∈ nodes := List.mem_of_find?_eq_some hfind
  rcases hv n hmem with hnone | ⟨g, hg, hgid⟩
  · rw [hnone] at hpid
    exact absurd hpid (by simp)
  · rw [hgid] at hpid
    have : g.id = a := by simpa using hpid
    subst this
    exact ⟨hne g hg, List.mem_map_of_mem IGroup.id hg⟩

theorem sameGroupEdge_eq_key (nodes : List INode) (gid : String) (e : IEdge) :
    sameGroupEdge nodes gid e = (edgeParentKey nodes e == some gid) := by
  unfold sameGroupEdge edgeParentKey
  cases h1 : jsParent nodes e.source with
  | none => simp
  | some a =>
    cases h2 : jsParent nodes e.target with
    | none => simp
    | some b =>
      by_cases hab : a = b
      · subst hab
        simp
      · simp only [beq_iff_eq, if_neg (by simpa using hab)]
        simp [hab]
        intro hga
        exact fun hgb => hab (hga.trans hgb.symm)

theorem rootLevelEdge_eq_key (groups : List IGroup) (nodes : List INode)
    (hne : ∀ g ∈ groups, g.id ≠ "")
    (hv : ∀ n ∈ nodes, n.parentId = none ∨ ∃ g ∈ groups, n.parentId = some g.id)
    (e : IEdge) :
    rootLevelEdge nodes e = (edgeParentKey nodes e == none) := by
  unfold rootLevelEdge edgeParentKey
  cases h1 : jsParent nodes e.source with
  | none =>
    cases h2 : jsParent nodes e.target with
    | none => simp [jsFalsy]
    | some b => simp [jsFalsy]
  | some a =>
    have ha : a ≠ "" := (jsParent_valid groups nodes hne hv e.source a h1).1
    cases h2 : jsParent nodes e.target with
    | none => simp [jsFalsy]
    | some b =>
      have hb : b ≠ "" := (jsParent_valid groups nodes hne hv e.target b h2).1
      by_cases hab : a = b
      · subst hab
        simp [jsFalsy, ha]
      · simp [jsFalsy, hab, ha, hb]

theorem edgeParentKey_some (nodes : List INode) (e : IEdge) (a : String)
    (h : edgeParentKey nodes e = some a) :
    jsParent nodes e.source = some a ∧ jsParent nodes e.target = some a := by
  unfold edgeParentKey at h
  cases h1 : jsParent nodes e.source with
  | none => rw [h1] at h; simp at h
  | some x =>
    cases h2 : jsParent nodes e.target with
    | none => rw [h1, h2] at h; simp at h
    | some y =>
      rw [h1, h2] at h
      by_cases hxy : x = y
      · subst hxy
        simp at h
        subst h
        exact ⟨rfl, rfl⟩
      · have hc : (x == y) = false := by simpa using hxy
        simp [hc] at h

theorem edgeParentKey_of_parents (nodes : List INode) (e : IEdge) (a : String)
    (h1 : jsParent nodes e.source = some a) (h2 : jsParent nodes e.target = some a) :
    edgeParentKey nodes e = some a := by
  unfold edgeParentKey
  rw [h1, h2]
  simp

theorem edge_partition_perm (groups : List IGroup) (nodes : List INode) (edges : List IEdge)
    (hnd : (groups.map IGroup.id).Nodup)
    (hne : ∀ g ∈ groups, g.id ≠ "")
    (hv : ∀ n ∈ nodes, n.parentId = none ∨ ∃ g ∈ groups, n.parentId = some g.id) :
    (groups.flatMap (fun g => edges.filter (sameGroupEdge nodes g.id)) ++
      edges.filter (rootLevelEdge nodes)).Perm edges := by
  have hfun : (fun g : IGroup => edges.filter (sameGroupEdge nodes g.id)) =
      (fun g : IGroup => edges.filter (fun e => edgeParentKey nodes e == some g.id)) := by
    funext g
    exact List.filter_congr (fun e _ => sameGroupEdge_eq_key nodes g.id e)
  have hkey := filter_key_flatMap_perm (edgeParentKey nodes) (groups.map IGroup.id) edges hnd
  have hcong : edges.filter
      (fun e => !((groups.map IGroup.id).any (fun i => edgeParentKey nodes e == some i))) =
      edges.filter (rootLevelEdge nodes) := by
    apply List.filter_congr
    intro e _
    cases hk : edgeParentKey nodes e with
    | none =>
      have hroot : rootLevelEdge nodes e = true := by
        rw [rootLevelEdge_eq_key groups nodes hne hv e, hk]
        rfl
      simp [hroot]
    | some a =>
      obtain ⟨hs, _⟩ := edgeParentKey_some nodes e a hk
      have ha : a ∈ groups.map IGroup.id := (jsParent_valid groups nodes hne hv e.source a hs).2
      have hany : ((groups.map IGroup.id).any (fun i => (some a : Option String) == some i)) = true :=
        List.any_eq_true.mpr ⟨a, ha, by simp⟩
      have hroot : rootLevelEdge nodes e = false := by
        rw [rootLevelEdge_eq_key groups nodes hne hv e, hk]
        rfl
      rw [hany, hroot]
      rfl
  have base := List.filter_append_perm
    (fun e : IEdge => (groups.map IGroup.id).any (fun i => edgeParentKey nodes e == some i)) edges
  rw [hfun, ← List.flatMap_map IGroup.id
    (fun i => edges.filter (fun e => edgeParentKey nodes e == some i)) groups, ← hcong]
  exact (List.Perm.append hkey.symm (List.Perm.refl _)).trans base

/-- C4: `calculateLayout` has no failure modes of its own.  If the engine
rejects with `e`, `calculateLayout` rethrows exactly that `e`; if the
engine resolves with `r`, `calculateLayout` returns normally with the
extraction of `r`.  Being a total function of the engine outcome, it
raises nothing else. -/
theorem c4_error_passthrough {ε : Type} (elkLayout : ElkNode → Except ε ElkNode)
    (input : ILayoutInput) (options : IElkLayoutOptions) :
    (∀ e : ε, elkLayout (buildElkGraph input (mergeOptions defaultOptions options)) =
        Except.error e → calculateLayout elkLayout input options = Except.error e) ∧
    (∀ r : ElkNode, elkLayout (buildElkGraph input (mergeOptions defaultOptions options)) =
        Except.ok r → calculateLayout elkLayout input options =
          Except.ok (extractLayoutResults r input.enableGroups)) := by
  constructor
  · intro e h
    simp [calculateLayout, h]
  · intro r h
    simp [calculateLayout, h]

/-- C4 witness: a rejecting engine's error value is passed through on a
concrete input, and an accepting engine yields a normal return. -/
theorem c4_witness :
    calculateLayout errEngine wfInput emptyOptions = Except.error "elk failed" ∧
    calculateLayout idEngine wfInput emptyOptions =
      Except.ok (extractLayoutResults
        (buildElkGraph wfInput (mergeOptions defaultOptions emptyOptions))
        wfInput.enableGroups) := by
  constructor
  · exact (c4_error_passthrough errEngine wfInput emptyOptions).1 "elk failed" rfl
  · exact (c4_error_passthrough idEngine wfInput emptyOptions).2
      (buildElkGraph wfInput (mergeOptions defaultOptions emptyOptions)) rfl

/-- C10: every edge of an extraction result has `sourceHandle = source` and
`targetHandle = target`, all four read off the first entries of the engine
edge's `sources`/`targets` arrays; input handle values are not preserved. -/
theorem c10_handles_equal_endpoints (result : ElkNode) (b : Bool) (e : IEdge)
    (h : e ∈ (extractLayoutResults result b).edges) :
    e.sourceHandle = e.source ∧ e.targetHandle = e.target ∧
    ∃ re ∈ result.edges, e.id = re.id ∧ e.source = jsIndex0 re.sources ∧
      e.target = jsIndex0 re.targets ∧ e.sourceHandle = jsIndex0 re.sources ∧
      e.targetHandle = jsIndex0 re.targets := by
  simp only [extractLayoutResults] at h
  obtain ⟨re, hre, rfl⟩ := List.mem_map.mp h
  exact ⟨rfl, rfl, re, hre, rfl, rfl, rfl, rfl, rfl⟩

/-- C10 witness: the concrete extracted edge of `sampleResult` has its
handles equal to its endpoints. -/
theorem c10_witness :
    (⟨"e", "cN", "dN", "cN", "dN"⟩ : IEdge).sourceHandle =
      (⟨"e", "cN", "dN", "cN", "dN"⟩ : IEdge).source ∧
    (⟨"e", "cN", "dN", "cN", "dN"⟩ : IEdge).targetHandle =
      (⟨"e", "cN", "dN", "cN", "dN"⟩ : IEdge).target ∧
    ∃ re ∈ sampleResult.edges, (⟨"e", "cN", "dN", "cN", "dN"⟩ : IEdge).id = re.id ∧
      (⟨"e", "cN", "dN", "cN", "dN"⟩ : IEdge).source = jsIndex0 re.sources ∧
      (⟨"e", "cN", "dN", "cN", "dN"⟩ : IEdge).target = jsIndex0 re.targets ∧
      (⟨"e", "cN", "dN", "cN", "dN"⟩ : IEdge).sourceHandle = jsIndex0 re.sources ∧
      (⟨"e", "cN", "dN", "cN", "dN"⟩ : IEdge).targetHandle = jsIndex0 re.targets :=
  c10_handles_equal_endpoints sampleResult true ⟨"e", "cN", "dN", "cN", "dN"⟩ (by decide)

/-- C7: the output conversion is total on coordinates — every group and
node of an extraction result has a defined position, and a missing `x` or
`y` on a root-level group or node is replaced by `0` in the pushed record
rather than failing. -/
theorem c7_positions_total (result : ElkNode) (b : Bool) :
    (∀ g ∈ (extractLayoutResults result b).groups, ∃ p : IPoint, g.position? = some p) ∧
    (∀ n ∈ (extractLayoutResults result b).nodes, ∃ p : IPoint, n.position? = some p) ∧
    (∀ c ∈ result.children, c.type? = some "group" → b = true →
      extractGroup c ∈ (extractLayoutResults result b).groups ∧
      (extractGroup c).position? = some ⟨jsNum c.x?, jsNum c.y?⟩ ∧
      (c.x? = none → (extractGroup c).position? = some ⟨0, jsNum c.y?⟩) ∧
      (c.y? = none → (extractGroup c).position? = some ⟨jsNum c.x?, 0⟩)) ∧
    (∀ c ∈ result.children, c.type? = some "node" →
      extractRootNode c ∈ (extractLayoutResults result b).nodes ∧
      (extractRootNode c).position? = some ⟨jsNum c.x?, jsNum c.y?⟩ ∧
      (c.x? = none → (extractRootNode c).position? = some ⟨0, jsNum c.y?⟩) ∧
      (c.y? = none → (extractRootNode c).position? = some ⟨jsNum c.x?, 0⟩)) := by
  refine ⟨?_, ?_, ?_, ?_⟩
  · intro g hg
    simp only [extractLayoutResults] at hg
    obtain ⟨c, _, rfl⟩ := List.mem_map.mp hg
    exact ⟨_, rfl⟩
  · intro n hn
    simp only [extractLayoutResults] at hn
    rcases List.mem_append.mp hn with hnest | hroot
    · obtain ⟨g, _, hc⟩ := List.mem_flatMap.mp hnest
      obtain ⟨c, _, rfl⟩ := List.mem_map.mp hc
      exact ⟨_, rfl⟩
    · obtain ⟨c, _, rfl⟩ := List.mem_map.mp hroot
      exact ⟨_, rfl⟩
  · intro c hc htype hb
    subst hb
    refine ⟨?_, rfl, ?_, ?_⟩
    · simp only [extractLayoutResults, if_true]
      exact List.mem_map_of_mem extractGroup
        (List.mem_filter.mpr ⟨hc, by simp [htype]⟩)
    · intro hx
      simp [extractGroup, jsNum, hx]
    · intro hy
      simp [extractGroup, jsNum, hy]
  · intro c hc htype
    refine ⟨?_, rfl, ?_, ?_⟩
    · simp only [extractLayoutResults]
      refine List.mem_append.mpr (Or.inr ?_)
      exact List.mem_map_of_mem extractRootNode
        (List.mem_filter.mpr ⟨hc, by simp [htype]⟩)
    · intro hx
      simp [extractRootNode, jsNum, hx]
    · intro hy
      simp [extractRootNode, jsNum, hy]

/-- C7 witness: `sampleResult`'s root node `dN` has no `x` coordinate; its
extracted record is in the output with `x` substituted by `0`. -/
theorem c7_witness :
    extractRootNode sampleLeafNode ∈ (extractLayoutResults sampleResult true).nodes ∧
    (extractRootNode sampleLeafNode).position? =
      some ⟨jsNum sampleLeafNode.x?, jsNum sampleLeafNode.y?⟩ ∧
    (sampleLeafNode.x? = none →
      (extractRootNode sampleLeafNode).position? = some ⟨0, jsNum sampleLeafNode.y?⟩) ∧
    (sampleLeafNode.y? = none →
      (extractRootNode sampleLeafNode).position? = some ⟨jsNum sampleLeafNode.x?, 0⟩) :=
  (c7_positions_total sampleResult true).2.2.2 sampleLeafNode
    (show sampleLeafNode ∈ [sampleGroupNode, sampleLeafNode] from
      List.Mem.tail _ (List.Mem.head _)) rfl

/-- C1: every node of an extraction result sits somewhere in the engine
result under a chain of group-typed containers, and its absolute position
is the sum of those enclosing groups' (zero-defaulted) origins plus its
own offset; a root-level node's position is exactly its own `x`/`y`. -/
theorem c1_absolute_positions (result : ElkNode) (n : INode)
    (h : n ∈ (extractLayoutResults result true).nodes) :
    ∃ (gs : List ElkNode) (c : ElkNode), LocatedIn result gs c ∧
      (∀ g ∈ gs, g.type? = some "group") ∧
      n.id = c.id ∧ n.size = ⟨c.width?, c.height?⟩ ∧
      n.position? = some ⟨(gs.map (fun g => jsNum g.x?)).sum + jsNum c.x?,
                          (gs.map (fun g => jsNum g.y?)).sum + jsNum c.y?⟩ ∧
      (gs = [] → c.type? = some "node" ∧ n.parentId = none ∧
        n.position? = some ⟨jsNum c.x?, jsNum c.y?⟩) := by
  simp only [extractLayoutResults, if_true] at h
  rcases List.mem_append.mp h with hnest | hroot
  · obtain ⟨g, hg, hcm⟩ := List.mem_flatMap.mp hnest
    obtain ⟨c, hc, rfl⟩ := List.mem_map.mp hcm
    obtain ⟨hgmem, hgtype⟩ := List.mem_filter.mp hg
    refine ⟨[g], c, LocatedIn.there hgmem (LocatedIn.here hc), ?_, rfl, rfl, ?_, ?_⟩
    · intro g' hg'
      rw [List.mem_singleton.mp hg']
      simpa using hgtype
    · simp [extractNestedNode]
    · intro habs
      simp at habs
  · obtain ⟨c, hc, rfl⟩ := List.mem_map.mp hroot
    obtain ⟨hcmem, hctype⟩ := List.mem_filter.mp hc
    refine ⟨[], c, LocatedIn.here hcmem, by simp, rfl, rfl, ?_, ?_⟩
    · simp [extractRootNode]
    · intro _
      exact ⟨by simpa using hctype, rfl, rfl⟩

/-- C1 witness: the nested node `cN` of `sampleResult` is extracted at the
absolute position `(10+1, 20+2)`. -/
theorem c1_witness :
    ∃ (gs : List ElkNode) (c : ElkNode), LocatedIn sampleResult gs c ∧
      (∀ g ∈ gs, g.type? = some "group") ∧
      (⟨"cN", ⟨some 100, some 80⟩, some ⟨11, 22⟩, some "G"⟩ : INode).id = c.id ∧
      (⟨"cN", ⟨some 100, some 80⟩, some ⟨11, 22⟩, some "G"⟩ : INode).size =
        ⟨c.width?, c.height?⟩ ∧
      (⟨"cN", ⟨some 100, some 80⟩, some ⟨11, 22⟩, some "G"⟩ : INode).position? =
        some ⟨(gs.map (fun g => jsNum g.x?)).sum + jsNum c.x?,
              (gs.map (fun g => jsNum g.y?)).sum + jsNum c.y?⟩ ∧
      (gs = [] → c.type? = some "node" ∧
        (⟨"cN", ⟨some 100, some 80⟩, some ⟨11, 22⟩, some "G"⟩ : INode).parentId = none ∧
        (⟨"cN", ⟨some 100, some 80⟩, some ⟨11, 22⟩, some "G"⟩ : INode).position? =
          some ⟨jsNum c.x?, jsNum c.y?⟩) :=
  c1_absolute_positions sampleResult
    ⟨"cN", ⟨some 100, some 80⟩, some ⟨11, 22⟩, some "G"⟩ (by decide)

/-- C2 counterexample: `emptyIdInput` satisfies the claim's precondition —
its single node's `parentId` is the id of a group of the input — yet the
round trip yields the node twice (once nested in the `""` group, once at
root level, because `""` is falsy in `!node.parentId`), not exactly once. -/
theorem c2_counterexample :
    (∀ n ∈ emptyIdInput.nodes,
      n.parentId = none ∨ ∃ g ∈ emptyIdInput.groups, n.parentId = some g.id) ∧
    emptyIdInput.enableGroups = true ∧
    ((extractLayoutResults (buildElkGraph emptyIdInput emptyOptions) true).nodes.map
      INode.id) = ["n", "n"] := by
  refine ⟨by decide, rfl, rfl⟩

/-- C2 (amended): for inputs with pairwise-distinct non-empty group ids in
which each node's `parentId` is null or the id of some group, the
flat-nested-flat round trip on the structurally unchanged graph returns
the input nodes exactly (as a permutation of their id/parentId/size
projections; positions are recomputed). -/
theorem c2_roundtrip_nodes (input : ILayoutInput) (options : IElkLayoutOptions)
    (hb : input.enableGroups = true)
    (hnd : (input.groups.map IGroup.id).Nodup)
    (hne : ∀ g ∈ input.groups, g.id ≠ "")
    (hv : ∀ n ∈ input.nodes, n.parentId = none ∨ ∃ g ∈ input.groups, n.parentId = some g.id) :
    ((extractLayoutResults (buildElkGraph input options) true).nodes.map projN).Perm
      (input.nodes.map projN) := by
  have h0 : (extractLayoutResults (buildElkGraph input options) true).nodes =
      (buildGroupHierarchy input.groups input.nodes input.edges options).flatMap
        (fun g => g.children.map (extractNestedNode g)) ++
      ((input.nodes.filter (fun n => jsFalsy n.parentId)).map mkElkLeaf).map extractRootNode := by
    simp only [extractLayoutResults, if_true]
    rw [built_filter_group input options hb, built_filter_node input options hb]
  rw [h0, List.map_append]
  have hA : ((buildGroupHierarchy input.groups input.nodes input.edges options).flatMap
      (fun g => g.children.map (extractNestedNode g))).map projN =
      (input.groups.flatMap
        (fun g => input.nodes.filter (fun n => n.parentId == some g.id))).map projN := by
    unfold buildGroupHierarchy
    rw [List.flatMap_map, List.map_flatMap, List.map_flatMap]
    apply List.flatMap_congr
    intro g hg
    dsimp only [ElkNode.children]
    rw [List.map_map, List.map_map]
    apply List.map_congr_left
    intro n hn
    have hpid : n.parentId = some g.id := by simpa using (List.mem_filter.mp hn).2
    simp [projN, extractNestedNode, mkElkLeaf, ElkNode.id, ElkNode.x?, ElkNode.y?,
      ElkNode.width?, ElkNode.height?, Function.comp, hpid]
  have hB : (((input.nodes.filter (fun n => jsFalsy n.parentId)).map mkElkLeaf).map
      extractRootNode).map projN =
      (input.nodes.filter (fun n => jsFalsy n.parentId)).map projN := by
    rw [List.map_map, List.map_map]
    apply List.map_congr_left
    intro n hn
    have hf : jsFalsy n.parentId = true := (List.mem_filter.mp hn).2
    have hnone : n.parentId = none := by
      rcases hv n (List.mem_filter.mp hn).1 with h | ⟨g, hg, hpg⟩
      · exact h
      · exfalso
        rw [hpg] at hf
        simp [jsFalsy] at hf
        exact hne g hg hf
    simp [projN, extractRootNode, mkElkLeaf, ElkNode.id, ElkNode.x?, ElkNode.y?,
      ElkNode.width?, ElkNode.height?, Function.comp, hnone]
  rw [hA, hB, ← List.map_append]
  exact List.Perm.map projN
    (parent_partition_perm input.groups input.nodes hnd hne hv)

/-- C2 witness: the round trip on the concrete well-formed input returns
its four nodes exactly once each. -/
theorem c2_witness :
    ((extractLayoutResults (buildElkGraph wfInput emptyOptions) true).nodes.map projN).Perm
      (wfInput.nodes.map projN) :=
  c2_roundtrip_nodes wfInput emptyOptions rfl (by decide) (by decide) (by decide)

/-- C5 counterexample: `danglingParentInput` has a node whose `parentId`
names no group; with `enableGroups` true the engine graph built from it
has no children at all — the node is absent, so not every input node
appears exactly once. -/
theorem c5_counterexample :
    danglingParentInput.enableGroups = true ∧
    danglingParentInput.nodes.map INode.id = ["n"] ∧
    (buildElkGraph danglingParentInput emptyOptions).children = [] :=
  ⟨rfl, rfl, rfl⟩

/-- C5 (amended): for inputs with pairwise-distinct non-empty group ids in
which each node's `parentId` is null or the id of some group, every input
node appears exactly once in the engine graph: the graph's node-object ids
are a permutation of the input node ids, a null-parent node appears among
the root-level children, and a node with `parentId = p` appears inside the
group child with id `p`. -/
theorem c5_nodes_once (input : ILayoutInput) (options : IElkLayoutOptions)
    (hb : input.enableGroups = true)
    (hnd : (input.groups.map IGroup.id).Nodup)
    (hne : ∀ g ∈ input.groups, g.id ≠ "")
    (hv : ∀ n ∈ input.nodes, n.parentId = none ∨ ∃ g ∈ input.groups, n.parentId = some g.id) :
    (graphLeafIds (buildElkGraph input options)).Perm (input.nodes.map INode.id) ∧
    (∀ n ∈ input.nodes, n.parentId = none →
      mkElkLeaf n ∈ (buildElkGraph input options).children) ∧
    (∀ n ∈ input.nodes, ∀ p, n.parentId = some p →
      ∃ gc ∈ (buildElkGraph input options).children, gc.type? = some "group" ∧
        gc.id = p ∧ mkElkLeaf n ∈ gc.children) := by
  refine ⟨?_, ?_, ?_⟩
  · unfold graphLeafIds
    rw [built_filter_group input options hb, built_filter_node input options hb]
    have hA : (buildGroupHierarchy input.groups input.nodes input.edges options).flatMap
        (fun gr => gr.children.map ElkNode.id) =
        (input.groups.flatMap
          (fun g => input.nodes.filter (fun n => n.parentId == some g.id))).map INode.id := by
      unfold buildGroupHierarchy
      rw [List.flatMap_map, List.map_flatMap]
      apply List.flatMap_congr
      intro g hg
      dsimp only [ElkNode.children]
      rw [List.map_map]
      rfl
    have hB : ((input.nodes.filter (fun n => jsFalsy n.parentId)).map mkElkLeaf).map
        ElkNode.id = (input.nodes.filter (fun n => jsFalsy n.parentId)).map INode.id := by
      rw [List.map_map]
      rfl
    rw [hA, hB, ← List.map_append]
    exact List.Perm.map INode.id
      (parent_partition_perm input.groups input.nodes hnd hne hv)
  · intro n hn hnone
    rw [built_children_split input options hb]
    refine List.mem_append.mpr (Or.inr ?_)
    exact List.mem_map_of_mem mkElkLeaf
      (List.mem_filter.mpr ⟨hn, by simp [jsFalsy, hnone]⟩)
  · intro n hn p hp
    rcases hv n hn with hnone | ⟨g, hg, hpg⟩
    · rw [hnone] at hp
      cases hp
    · have hpg' : p = g.id := by
        rw [hp] at hpg
        simpa using hpg
      subst hpg'
      rw [built_children_split input options hb]
      refine ⟨ElkNode.mk g.id (some "group") none none none none
        (buildGroupLayoutOptions options)
        ((input.nodes.filter (fun n2 => n2.parentId == some g.id)).map mkElkLeaf)
        ((input.edges.filter (sameGroupEdge input.nodes g.id)).map mkElkEdge),
        ?_, rfl, rfl, ?_⟩
      · refine List.mem_append.mpr (Or.inl ?_)
        exact List.mem_map_of_mem _ hg
      · dsimp only [ElkNode.children]
        exact List.mem_map_of_mem mkElkLeaf
          (List.mem_filter.mpr ⟨hn, by simp [hp]⟩)

/-- C5 witness: on the concrete well-formed input, the engine graph's node
ids are a permutation of the input node ids, and the placement clauses
hold for its nodes. -/
theorem c5_witness :
    (graphLeafIds (buildElkGraph wfInput emptyOptions)).Perm
      (wfInput.nodes.map INode.id) ∧
    (∀ n ∈ wfInput.nodes, n.parentId = none →
      mkElkLeaf n ∈ (buildElkGraph wfInput emptyOptions).children) ∧
    (∀ n ∈ wfInput.nodes, ∀ p, n.parentId = some p →
      ∃ gc ∈ (buildElkGraph wfInput emptyOptions).children, gc.type? = some "group" ∧
        gc.id = p ∧ mkElkLeaf n ∈ gc.children) :=
  c5_nodes_once wfInput emptyOptions rfl (by decide) (by decide) (by decide)

theorem mkElkEdge_endpoints {e1 e2 : IEdge} (h : mkElkEdge e1 = mkElkEdge e2) :
    e1.source = e2.source ∧ e1.target = e2.target := by
  unfold mkElkEdge at h
  simp only [ElkEdge.mk.injEq, List.cons.injEq, and_true] at h
  exact ⟨h.2.1, h.2.2⟩

theorem sameGroupEdge_iff (nodes : List INode) (gid : String) (e : IEdge) :
    sameGroupEdge nodes gid e = true ↔
      (jsParent nodes e.source = some gid ∧ jsParent nodes e.target = some gid) := by
  unfold sameGroupEdge
  simp [Bool.and_eq_true]

/-- C8 counterexample: the single edge of `danglingEdgeInput` has both
endpoints resolving to the same `parentId = "ghost"`, which is no group's
id; the built engine graph places it in no group edge list and not in the
root edge list either — it is dropped, so the edge lists do not partition
the input edges. -/
theorem c8_counterexample :
    danglingEdgeInput.enableGroups = true ∧
    danglingEdgeInput.edges.map IEdge.id = ["e"] ∧
    (buildElkGraph danglingEdgeInput emptyOptions).edges = [] ∧
    (buildElkGraph danglingEdgeInput emptyOptions).children.flatMap ElkNode.edges = [] :=
  ⟨rfl, rfl, rfl, rfl⟩

/-- C8 (amended): for inputs with pairwise-distinct non-empty group ids in
which each node's `parentId` is null or the id of some group, the engine
graph's edge lists partition the input edges: an edge is in group `g`'s
list iff both endpoints resolve to nodes with `parentId = g.id`; it is in
the root list iff no such group exists; and the concatenation of all lists
is a permutation of the input edges. -/
theorem c8_edge_partition (input : ILayoutInput) (options : IElkLayoutOptions)
    (hb : input.enableGroups = true)
    (hnd : (input.groups.map IGroup.id).Nodup)
    (hne : ∀ g ∈ input.groups, g.id ≠ "")
    (hv : ∀ n ∈ input.nodes, n.parentId = none ∨ ∃ g ∈ input.groups, n.parentId = some g.id) :
    (∀ e ∈ input.edges, ∀ gc ∈ (buildElkGraph input options).children,
      gc.type? = some "group" →
      (mkElkEdge e ∈ gc.edges ↔
        (jsParent input.nodes e.source = some gc.id ∧
         jsParent input.nodes e.target = some gc.id))) ∧
    (∀ e ∈ input.edges,
      (mkElkEdge e ∈ (buildElkGraph input options).edges ↔
        ¬∃ g ∈ input.groups, jsParent input.nodes e.source = some g.id ∧
          jsParent input.nodes e.target = some g.id)) ∧
    ((buildElkGraph input options).children.flatMap ElkNode.edges ++
      (buildElkGraph input options).edges).Perm (input.edges.map mkElkEdge) := by
  refine ⟨?_, ?_, ?_⟩
  · intro e he gc hgc htype
    rw [built_children_split input options hb] at hgc
    rcases List.mem_append.mp hgc with hgrp | hleaf
    · obtain ⟨g, hg, rfl⟩ := List.mem_map.mp hgrp
      dsimp only [ElkNode.edges, ElkNode.id]
      constructor
      · intro hmem
        obtain ⟨e2, he2, heq⟩ := List.mem_map.mp hmem
        obtain ⟨he2m, he2p⟩ := List.mem_filter.mp he2
        obtain ⟨hs, ht⟩ := mkElkEdge_endpoints heq
        have := (sameGroupEdge_iff input.nodes g.id e2).mp he2p
        rw [hs, ht] at this
        exact this
      · intro hpar
        refine List.mem_map_of_mem mkElkEdge (List.mem_filter.mpr ⟨he, ?_⟩)
        exact (sameGroupEdge_iff input.nodes g.id e).mpr hpar
    · obtain ⟨n, _, rfl⟩ := List.mem_map.mp hleaf
      exact absurd htype (by simp [mkElkLeaf, ElkNode.type?])
  · intro e he
    have hedges : (buildElkGraph input options).edges =
        (input.edges.filter (rootLevelEdge input.nodes)).map mkElkEdge := by
      simp [buildElkGraph, hb, ElkNode.edges, buildRootLevelEdges]
    rw [hedges]
    constructor
    · intro hmem
      obtain ⟨e2, he2, heq⟩ := List.mem_map.mp hmem
      obtain ⟨he2m, he2p⟩ := List.mem_filter.mp he2
      obtain ⟨hs, ht⟩ := mkElkEdge_endpoints heq
      have hroot : rootLevelEdge input.nodes e = true := by
        rw [← he2p]
        unfold rootLevelEdge
        rw [hs, ht]
      rw [rootLevelEdge_eq_key input.groups input.nodes hne hv e] at hroot
      have hkey : edgeParentKey input.nodes e = none := by simpa using hroot
      rintro ⟨g, hg, hgs, hgt⟩
      rw [edgeParentKey_of_parents input.nodes e g.id hgs hgt] at hkey
      cases hkey
    · intro hno
      have hkey : edgeParentKey input.nodes e = none := by
        cases hk : edgeParentKey input.nodes e with
        | none => rfl
        | some a =>
          obtain ⟨hs, ht⟩ := edgeParentKey_some input.nodes e a hk
          have ha : a ∈ input.groups.map IGroup.id :=
            (jsParent_valid input.groups input.nodes hne hv e.source a hs).2
          obtain ⟨g, hg, hga⟩ := List.mem_map.mp ha
          exact absurd ⟨g, hg, hga ▸ hs, hga ▸ ht⟩ hno
      have hroot : rootLevelEdge input.nodes e = true := by
        rw [rootLevelEdge_eq_key input.groups input.nodes hne hv e, hkey]
        rfl
      exact List.mem_map_of_mem mkElkEdge (List.mem_filter.mpr ⟨he, hroot⟩)
  · rw [built_children_split input options hb, List.flatMap_append]
    have hleaves : ((input.nodes.filter (fun n => jsFalsy n.parentId)).map
        mkElkLeaf).flatMap ElkNode.edges = [] := by
      rw [List.flatMap_map]
      simp [mkElkLeaf, ElkNode.edges]
    have hgrps : (buildGroupHierarchy input.groups input.nodes input.edges options).flatMap
        ElkNode.edges =
        (input.groups.flatMap
          (fun g => input.edges.filter (sameGroupEdge input.nodes g.id))).map mkElkEdge := by
      unfold buildGroupHierarchy
      rw [List.flatMap_map, List.map_flatMap]
      apply List.flatMap_congr
      intro g hg
      dsimp only [ElkNode.edges]
    have hedges : (buildElkGraph input options).edges =
        (input.edges.filter (rootLevelEdge input.nodes)).map mkElkEdge := by
      simp [buildElkGraph, hb, ElkNode.edges, buildRootLevelEdges]
    rw [hleaves, hgrps, hedges, List.append_nil, ← List.map_append]
    exact List.Perm.map mkElkEdge
      (edge_partition_perm input.groups input.nodes input.edges hnd hne hv)

/-- C8 witness: on the concrete well-formed input the partition statement
holds; in particular its four edges distribute over the `g1` list (`e1`)
and the root list (`e2`, `e3`, `e4`) and their concatenation is a
permutation of the input edges. -/
theorem c8_witness :
    (∀ e ∈ wfInput.edges, ∀ gc ∈ (buildElkGraph wfInput emptyOptions).children,
      gc.type? = some "group" →
      (mkElkEdge e ∈ gc.edges ↔
        (jsParent wfInput.nodes e.source = some gc.id ∧
         jsParent wfInput.nodes e.target = some gc.id))) ∧
    (∀ e ∈ wfInput.edges,
      (mkElkEdge e ∈ (buildElkGraph wfInput emptyOptions).edges ↔
        ¬∃ g ∈ wfInput.groups, jsParent wfInput.nodes e.source = some g.id ∧
          jsParent wfInput.nodes e.target = some g.id)) ∧
    ((buildElkGraph wfInput emptyOptions).children.flatMap ElkNode.edges ++
      (buildElkGraph wfInput emptyOptions).edges).Perm (wfInput.edges.map mkElkEdge) :=
  c8_edge_partition wfInput emptyOptions rfl (by decide) (by decide) (by decide)

/-- C9 counterexample: with `enableGroups` false, the node of
`emptyParentFlatInput` carries the non-null `parentId = ""`, yet it is not
omitted from the graph sent to the engine — `""` is falsy in
`!node.parentId`, so the node is kept as a root-level child. -/
theorem c9_counterexample :
    emptyParentFlatInput.enableGroups = false ∧
    (∀ n ∈ emptyParentFlatInput.nodes, n.parentId ≠ none) ∧
    (buildElkGraph emptyParentFlatInput emptyOptions).children.map ElkNode.id = ["n"] :=
  ⟨rfl, by decide, rfl⟩

/-- C9 (amended): when `enableGroups` is false, `calculateLayout` returns
an empty groups array and every output node has null `parentId`; the graph
sent to the engine has exactly the input nodes with falsy (`null` or `""`)
`parentId` as children — so any node with a non-null, non-empty `parentId`
is omitted — carries no group objects, and forwards every input edge at
root level. -/
theorem c9_groups_disabled {ε : Type} (elkLayout : ElkNode → Except ε ElkNode)
    (input : ILayoutInput) (options : IElkLayoutOptions) (out : ILayoutOutput)
    (hb : input.enableGroups = false)
    (hok : calculateLayout elkLayout input options = Except.ok out) :
    out.groups = [] ∧ (∀ n ∈ out.nodes, n.parentId = none) ∧
    (∀ options2 : IElkLayoutOptions,
      (buildElkGraph input options2).children =
        (input.nodes.filter (fun n => jsFalsy n.parentId)).map mkElkLeaf ∧
      (∀ c ∈ (buildElkGraph input options2).children, c.type? = some "node") ∧
      (buildElkGraph input options2).edges = input.edges.map mkElkEdge) := by
  simp only [calculateLayout] at hok
  cases hcall : elkLayout (buildElkGraph input (mergeOptions defaultOptions options)) with
  | error e =>
    rw [hcall] at hok
    cases hok
  | ok r =>
    rw [hcall] at hok
    injection hok with hout
    subst hout
    refine ⟨?_, ?_, ?_⟩
    · simp [extractLayoutResults, hb]
    · intro n hn
      rw [hb] at hn
      simp only [extractLayoutResults] at hn
      simp only [if_neg (by simp : ¬(false = true))] at hn
      rcases List.mem_append.mp hn with hnest | hroot
      · simp at hnest
      · obtain ⟨c, _, rfl⟩ := List.mem_map.mp hroot
        rfl
    · intro options2
      refine ⟨?_, ?_, ?_⟩
      · simp [buildElkGraph, hb, ElkNode.children]
      · intro c hc
        have hch : (buildElkGraph input options2).children =
            (input.nodes.filter (fun n => jsFalsy n.parentId)).map mkElkLeaf := by
          simp [buildElkGraph, hb, ElkNode.children]
        rw [hch] at hc
        obtain ⟨n, _, rfl⟩ := List.mem_map.mp hc
        rfl
      · simp [buildElkGraph, hb, ElkNode.edges]

/-- C9 witness: the amended statement instantiated on a concrete flat
input with the identity engine. -/
theorem c9_witness :
    (extractLayoutResults
      (buildElkGraph emptyParentFlatInput (mergeOptions defaultOptions emptyOptions))
      false).groups = [] ∧
    (∀ n ∈ (extractLayoutResults
      (buildElkGraph emptyParentFlatInput (mergeOptions defaultOptions emptyOptions))
      false).nodes, n.parentId = none) ∧
    (∀ options2 : IElkLayoutOptions,
      (buildElkGraph emptyParentFlatInput options2).children =
        (emptyParentFlatInput.nodes.filter (fun n => jsFalsy n.parentId)).map mkElkLeaf ∧
      (∀ c ∈ (buildElkGraph emptyParentFlatInput options2).children,
        c.type? = some "node") ∧
      (buildElkGraph emptyParentFlatInput options2).edges =
        emptyParentFlatInput.edges.map mkElkEdge) :=
  c9_groups_disabled idEngine emptyParentFlatInput emptyOptions
    (extractLayoutResults
      (buildElkGraph emptyParentFlatInput (mergeOptions defaultOptions emptyOptions))
      false) rfl rfl

/-- C3 (failing input evaluated): `intraGroupEdgeInput`'s single edge has
both endpoints inside group `G`.  The built engine graph nests the edge in
`G`'s edge list (and keeps it out of the root list), but
`extractLayoutResults` reads only the root-level `result.edges`, so with
an engine that returns the graph unchanged, `calculateLayout` returns an
edge array that omits the edge entirely. -/
theorem c3_intra_group_edge_dropped :
    intraGroupEdgeInput.edges.map IEdge.id = ["e"] ∧
    (buildElkGraph intraGroupEdgeInput
      (mergeOptions defaultOptions emptyOptions)).children.flatMap ElkNode.edges =
      [⟨"e", ["n1"], ["n2"]⟩] ∧
    (buildElkGraph intraGroupEdgeInput (mergeOptions defaultOptions emptyOptions)).edges = [] ∧
    Except.map ILayoutOutput.edges
      (calculateLayout idEngine intraGroupEdgeInput emptyOptions) = Except.ok [] :=
  ⟨rfl, rfl, rfl, rfl⟩

theorem buildGroupHierarchy_by_ids (groups : List IGroup) (nodes : List INode)
    (edges : List IEdge) (options : IElkLayoutOptions) :
    buildGroupHierarchy groups nodes edges options =
      (groups.map IGroup.id).map (fun gid =>
        ElkNode.mk gid (some "group") none none none none
          (buildGroupLayoutOptions options)
          ((nodes.filter (fun n => n.parentId == some gid)).map mkElkLeaf)
          ((edges.filter (sameGroupEdge nodes gid)).map mkElkEdge)) := by
  unfold buildGroupHierarchy
  rw [List.map_map]
  rfl

/-- C6: group sizing is delegated to the engine.  Two inputs whose groups
agree on ids (so may differ arbitrarily in size) yield identical engine
graphs, and every group of an extraction output takes its size verbatim
from the engine result's group object. -/
theorem c6_group_size_noninterference (i1 i2 : ILayoutInput)
    (options : IElkLayoutOptions)
    (hg : i1.groups.map IGroup.id = i2.groups.map IGroup.id)
    (hn : i1.nodes = i2.nodes) (he : i1.edges = i2.edges)
    (hb : i1.enableGroups = i2.enableGroups) :
    buildElkGraph i1 options = buildElkGraph i2 options ∧
    (∀ r : ElkNode, ∀ b : Bool, ∀ g ∈ (extractLayoutResults r b).groups,
      ∃ c ∈ r.children, c.type? = some "group" ∧ g.id = c.id ∧
        g.size = ⟨c.width?, c.height?⟩) := by
  constructor
  · unfold buildElkGraph
    rw [hn, he, hb]
    simp only [buildGroupHierarchy_by_ids]
    rw [hg]
  · intro r b g hgm
    simp only [extractLayoutResults] at hgm
    cases b with
    | false => simp at hgm
    | true =>
      simp only [if_true] at hgm
      obtain ⟨c, hcf, rfl⟩ := List.mem_map.mp hgm
      obtain ⟨hcm, hct⟩ := List.mem_filter.mp hcf
      exact ⟨c, hcm, by simpa using hct, rfl, rfl⟩

/-- C6 witness: resizing (and positioning) the groups of the concrete
input leaves the engine graph unchanged, and the concrete result group's
size is copied into the output. -/
theorem c6_witness :
    buildElkGraph wfInput emptyOptions = buildElkGraph wfInputResized emptyOptions ∧
    (∃ c ∈ sampleResult.children, c.type? = some "group" ∧
      (extractGroup sampleGroupNode).id = c.id ∧
      (extractGroup sampleGroupNode).size = ⟨c.width?, c.height?⟩) :=
  have h := c6_group_size_noninterference wfInput wfInputResized emptyOptions rfl rfl rfl rfl
  ⟨h.1, h.2 sampleResult true (extractGroup sampleGroupNode) (by decide)⟩
